import Mathlib

/-!
Verification of the weekly leaderboard pipeline in
`src/components/TopGearLeaderboard.tsx`.

The embedding models local wall-clock time as an integer count of
milliseconds on a DST-free timeline (a fixed UTC offset), calibrated so
that day number 0 is a Sunday: `getDay()` of an instant `t` is
`(t / msPerDay) % 7` with `0 = Sunday`, exactly as the component reads it.
JavaScript numbers are modelled as `JSNumber` (a finite rational, `NaN`,
or a signed infinity); `Date` parsing is modelled as `Option Int`
(`none` = Invalid Date, whose `getTime()` is `NaN`).
-/

namespace TopGear

/-- Milliseconds per civil day. -/
def msPerDay : Int := 86400000

/-- Milliseconds per civil week. -/
def msPerWeek : Int := 604800000

/-- Result of a JavaScript numeric conversion: a finite double (modelled
as a rational), `NaN`, or an infinity. -/
inductive JSNumber where
  | fin : ℚ → JSNumber
  | nan : JSNumber
  | posInf : JSNumber
  | negInf : JSNumber
deriving DecidableEq

/-- JavaScript `Number.isFinite`. -/
def JSNumber.isFinite : JSNumber → Bool
  | .fin _ => true
  | _ => false

/-- A raw feed record, as the component's untyped `raw` entries present
themselves to `laps` (lines 196-214). String fields are `Option String`
(`none` = absent/null, handled by `?? ""`). Each numeric text field is
carried together with the two attributes the component actually reads
from it: its JavaScript truthiness (the `r.x ?` test) and the result of
converting it with `Number(...)` (respectively `parseFloat` for
`lapTime`). `startTime` carries the result of `new Date(r.startTime)`:
`some` epoch-milliseconds, or `none` for an Invalid Date. -/
structure RawRecord where
  fullName : Option String
  lapTime_parseFloat : JSNumber
  driverRating_truthy : Bool
  driverRating_toNumber : JSNumber
  eventId : Option String
  lapId : Option String
  trackTemp_truthy : Bool
  trackTemp_toNumber : JSNumber
  trackUsage_truthy : Bool
  trackUsage_toNumber : JSNumber
  fuelUsed_truthy : Bool
  fuelUsed_toNumber : JSNumber
  carId : Option String
  carName : Option String
  trackName : Option String
  trackId : Option String
  startTime_ms : Option Int
deriving DecidableEq

/-- A mapped lap entity, the element type produced by the `.map` stage of
`laps` (lines 198-212), before and after the `.filter` stage. -/
structure Lap where
  fullName : String
  lapTime : JSNumber
  driverRating : Option JSNumber
  eventId : Option String
  lapId : Option String
  trackTemp : Option JSNumber
  trackUsage : Option JSNumber
  fuelUsed : Option JSNumber
  carId : Option String
  carName : String
  trackName : String
  trackId : Option String
  startTime : Option Int
deriving DecidableEq

/-- The `parseLapTime` helper (lines 164-167): the `parseFloat` result if
it is finite, `NaN` otherwise. -/
def parseLapTime (n : JSNumber) : JSNumber :=
  if n.isFinite then n else .nan

/-- The mapping arrow of `laps` (lines 198-212): one raw record to one
lap entity. Optional numeric fields follow `r.x ? Number(r.x) : null`:
present exactly when the raw field is truthy, storing the `Number(...)`
conversion verbatim (including a non-finite result). -/
def normalizeRecord (r : RawRecord) : Lap where
  fullName := r.fullName.getD ""
  lapTime := parseLapTime r.lapTime_parseFloat
  driverRating := if r.driverRating_truthy then some r.driverRating_toNumber else none
  eventId := r.eventId
  lapId := r.lapId
  trackTemp := if r.trackTemp_truthy then some r.trackTemp_toNumber else none
  trackUsage := if r.trackUsage_truthy then some r.trackUsage_toNumber else none
  fuelUsed := if r.fuelUsed_truthy then some r.fuelUsed_toNumber else none
  carId := r.carId
  carName := r.carName.getD ""
  trackName := r.trackName.getD ""
  trackId := r.trackId
  startTime := r.startTime_ms

/-- The admission filter of `laps` (line 213):
`Number.isFinite(r.lapTime) && r.carName && r.trackName && !isNaN(r.startTime.getTime())`. -/
def keepLap (l : Lap) : Bool :=
  l.lapTime.isFinite && !(l.carName = "") && !(l.trackName = "") && l.startTime.isSome

/-- The Record Normalizer: the `laps` memo (lines 196-214), a map
followed by a filter. -/
def normalize (rs : List RawRecord) : List Lap :=
  (rs.map normalizeRecord).filter keepLap

/-- A week window as returned by `weekBounds` (lines 168-177):
inclusive start and exclusive end, in local-clock milliseconds. -/
structure WeekWindow where
  start : Int
  endExclusive : Int
deriving DecidableEq

/-- The Week Window Calculator `weekBounds` (lines 168-177): truncate the
instant to local midnight (`setHours(0,0,0,0)`), step back `getDay()`
civil days to the most recent Sunday, and add 7 civil days for the
exclusive end. -/
def weekBounds (t : Int) : WeekWindow :=
  let dayN := t / msPerDay
  let dow := dayN % 7
  let start := (dayN - dow) * msPerDay
  ⟨start, start + 7 * msPerDay⟩

/-- The window the component actually filters with on a given cycle.
`weekStart`/`weekEnd` come from `useMemo(() => weekBounds(new Date()), [])`
(line 216): the empty dependency list means the value is computed once,
from the instant at which the component mounted, and reused unchanged by
every later fetch/aggregation cycle regardless of that cycle's own
instant. -/
def weekWindowUsedByCycle (mountInstant _cycleInstant : Int) : WeekWindow :=
  weekBounds mountInstant

/-- The week filter of `lapsThisWeek` (line 217):
`l.startTime >= weekStart && l.startTime < weekEnd`. An invalid date
(`NaN` epoch value) compares false on both sides. -/
def inWindow (w : WeekWindow) (l : Lap) : Bool :=
  match l.startTime with
  | some t => decide (w.start ≤ t) && decide (t < w.endExclusive)
  | none => false

/-- The `msUntilNext10` helper of the refresh scheduler (lines 125-136):
`next` is the current instant truncated to the minute plus `add` minutes,
where `add` is 10 when the instant sits exactly on a 10-minute boundary
and `10 - minutes % 10` otherwise; the returned delay is `next - now`. -/
def msUntilNext10 (t : Int) : Int :=
  let m := (t / 60000) % 10
  let s := t % 60000
  if m = 0 ∧ s = 0 then 600000 else (10 - m) * 60000 - s

/-- The instant the recursive `schedule` closure (lines 138-144) aims its
next timeout at, as a function of the instant its body runs: it calls
`msUntilNext10()` afresh rather than adding a fixed offset. -/
def nextFireTarget (t : Int) : Int :=
  t + msUntilNext10 t

/-- Convenience constructor for concrete test laps: a lap with the given
driver, lap time, car, track, and start instant, all optional fields
absent. -/
def mkLap (name : String) (time : ℚ) (car track : String) (startMs : Int) : Lap where
  fullName := name
  lapTime := .fin time
  driverRating := none
  eventId := none
  lapId := none
  trackTemp := none
  trackUsage := none
  fuelUsed := none
  carId := none
  carName := car
  trackName := track
  trackId := none
  startTime := some startMs

/-- C5: for every instant, `weekBounds` yields a window of exactly 7
civil days whose start is a local midnight (`start % msPerDay = 0`) on a
Sunday (day-of-week 0) with the instant inside the window (hence the
start is the most recent Sunday midnight, the instant's own day when it
is a Sunday), and an instant lying exactly on a Sunday midnight is itself
the start of the window it gets; the calculator is a pure function of the
instant, hence deterministic. -/
theorem week_window_correct (t : Int) :
    (weekBounds t).endExclusive - (weekBounds t).start = 7 * msPerDay ∧
    (weekBounds t).start % msPerDay = 0 ∧
    ((weekBounds t).start / msPerDay) % 7 = 0 ∧
    (weekBounds t).start ≤ t ∧ t < (weekBounds t).endExclusive ∧
    (t % msPerWeek = 0 → (weekBounds t).start = t) := by
  refine ⟨?_, ?_, ?_, ?_, ?_, fun h => ?_⟩ <;>
    simp only [weekBounds, msPerDay, msPerWeek] at * <;> omega

/-- Witness for `week_window_correct` at the instant exactly one week
after the timeline origin, a Sunday midnight: it is its own window
start. -/
theorem week_window_correct_witness :
    (604800000 : Int) % msPerWeek = 0 ∧ (weekBounds 604800000).start = 604800000 :=
  ⟨by decide, (week_window_correct 604800000).2.2.2.2.2 (by decide)⟩

/-- C6: the window actually applied by a fetch/aggregation cycle is the
one computed at component mount, not one recomputed from the cycle's own
instant. Concretely with mount at Saturday noon of week 0
(`561600000 ms`) and a scheduled cycle at 00:10 on the following Sunday
(`605400000 ms`): the cycle still filters with the mount-week window,
which differs from the fresh window of its own instant, so a lap set at
the cycle instant is excluded even though the fresh window would admit
it. -/
theorem week_window_stale_after_mount :
    weekWindowUsedByCycle 561600000 605400000 = weekBounds 561600000 ∧
    weekWindowUsedByCycle 561600000 605400000 ≠ weekBounds 605400000 ∧
    inWindow (weekWindowUsedByCycle 561600000 605400000)
      (mkLap "Aron Day" 60 "Toyota GR86" "Lime Rock Park" 605400000) = false ∧
    inWindow (weekBounds 605400000)
      (mkLap "Aron Day" 60 "Toyota GR86" "Lime Rock Park" 605400000) = true :=
  ⟨rfl, by decide, by decide, by decide⟩

/-- C8: the scheduler's delay is strictly positive, lands exactly on a
wall-clock 10-minute boundary (`% 600000 = 0`), and no earlier instant
strictly after the current one is such a boundary; since each firing
recomputes `msUntilNext10` from its own instant (`nextFireTarget`), this
holds at arbitrary — in particular delayed — firing instants, so the
alignment self-corrects. -/
theorem scheduler_next_boundary (t : Int) :
    0 < msUntilNext10 t ∧ nextFireTarget t % 600000 = 0 ∧
    ∀ u : Int, t < u → u % 600000 = 0 → nextFireTarget t ≤ u := by
  refine ⟨?_, ?_, fun u hu hb => ?_⟩ <;>
    simp only [nextFireTarget, msUntilNext10] at * <;> split <;> omega

/-- Witness for `scheduler_next_boundary` at the instant 123456 ms (a
non-boundary instant): the next boundary 600000 is not undershot. -/
theorem scheduler_next_boundary_witness :
    ((123456 : Int) < 600000 ∧ (600000 : Int) % 600000 = 0) ∧
      nextFireTarget 123456 ≤ 600000 :=
  ⟨⟨by decide, by decide⟩,
    (scheduler_next_boundary 123456).2.2 600000 (by decide) (by decide)⟩

/-- A raw record whose `fullName` field is absent while every admission
requirement of the filter on line 213 is met. -/
def recNoName : RawRecord where
  fullName := none
  lapTime_parseFloat := .fin 58
  driverRating_truthy := false
  driverRating_toNumber := .nan
  eventId := none
  lapId := none
  trackTemp_truthy := false
  trackTemp_toNumber := .nan
  trackUsage_truthy := false
  trackUsage_toNumber := .nan
  fuelUsed_truthy := false
  fuelUsed_toNumber := .nan
  carId := none
  carName := some "Toyota GR86"
  trackName := some "Lime Rock Park"
  trackId := none
  startTime_ms := some 0

/-- A raw record with a present `fullName` but whose `driverRating` text
is present (truthy) and converts to `NaN` — e.g. the literal text
"spicy" — while every admission requirement of the filter is met. -/
def recBadRating : RawRecord :=
  { recNoName with
    fullName := some "Aron Day"
    driverRating_truthy := true
    driverRating_toNumber := .nan }

/-- C4 (amended): the Normalizer is a map followed by a filter, so its
output is no longer than the input and keeps surviving records in input
order (it is a sublist of the mapped input); every output lap has a
finite `lapTime`, non-empty `carName` and `trackName`, and a
successfully parsed `startTime`. Its `fullName`, however, is never
validated and may be empty. -/
theorem normalizer_invariants (rs : List RawRecord) :
    (normalize rs).length ≤ rs.length ∧
    List.Sublist (normalize rs) (rs.map normalizeRecord) ∧
    ∀ l ∈ normalize rs,
      (∃ r ∈ rs, normalizeRecord r = l) ∧
      l.lapTime.isFinite = true ∧ l.carName ≠ "" ∧ l.trackName ≠ "" ∧
      l.startTime.isSome = true := by
  refine ⟨?_, List.filter_sublist _, fun l hl => ?_⟩
  · calc (normalize rs).length ≤ (rs.map normalizeRecord).length :=
          (List.filter_sublist _).length_le
      _ = rs.length := List.length_map _ _
  · obtain ⟨hmem, hkeep⟩ := List.mem_filter.mp hl
    obtain ⟨r, hr, hrl⟩ := List.mem_map.mp hmem
    simp only [keepLap, Bool.and_eq_true, Bool.not_eq_true', decide_eq_false_iff_not]
      at hkeep
    exact ⟨⟨r, hr, hrl⟩, hkeep.1.1.1, hkeep.1.1.2, hkeep.1.2, hkeep.2⟩

/-- Witness for `normalizer_invariants`: the single record
`recBadRating` is admitted and its normalization satisfies the
invariants. -/
theorem normalizer_invariants_witness :
    normalizeRecord recBadRating ∈ normalize [recBadRating] ∧
    ((∃ r ∈ [recBadRating], normalizeRecord r = normalizeRecord recBadRating) ∧
      (normalizeRecord recBadRating).lapTime.isFinite = true ∧
      (normalizeRecord recBadRating).carName ≠ "" ∧
      (normalizeRecord recBadRating).trackName ≠ "" ∧
      (normalizeRecord recBadRating).startTime.isSome = true) :=
  ⟨by decide, (normalizer_invariants [recBadRating]).2.2 _ (by decide)⟩

/-- C4 counterexample: a raw record with no `fullName` at all is still
admitted — the filter on line 213 never looks at `fullName` — and the
resulting lap's driver name is the empty string, violating the claimed
"non-empty driverName" invariant. -/
theorem normalizer_admits_empty_driver_name :
    (normalize [recNoName]).map Lap.fullName = [""] ∧
    (normalize [recNoName]).length = 1 := by
  decide

/-- C7 (amended): for every admitted lap, each optional numeric field
(driverRating, trackTemp, trackUsage, fuelUsed) is present exactly when
the corresponding raw text field is truthy, and then stores the raw
field's JavaScript numeric conversion verbatim — including a non-finite
conversion result, which is stored rather than made absent. -/
theorem optional_field_conversion (rs : List RawRecord) :
    ∀ l ∈ normalize rs, ∃ r ∈ rs, normalizeRecord r = l ∧
      l.driverRating =
        (if r.driverRating_truthy then some r.driverRating_toNumber else none) ∧
      l.trackTemp =
        (if r.trackTemp_truthy then some r.trackTemp_toNumber else none) ∧
      l.trackUsage =
        (if r.trackUsage_truthy then some r.trackUsage_toNumber else none) ∧
      l.fuelUsed =
        (if r.fuelUsed_truthy then some r.fuelUsed_toNumber else none) := by
  intro l hl
  obtain ⟨hmem, _⟩ := List.mem_filter.mp hl
  obtain ⟨r, hr, hrl⟩ := List.mem_map.mp hmem
  subst hrl
  exact ⟨r, hr, rfl, rfl, rfl, rfl, rfl⟩

/-- Witness for `optional_field_conversion` at the concrete admitted
record `recBadRating`. -/
theorem optional_field_conversion_witness :
    ∃ r ∈ [recBadRating], normalizeRecord r = normalizeRecord recBadRating ∧
      (normalizeRecord recBadRating).driverRating =
        (if r.driverRating_truthy then some r.driverRating_toNumber else none) ∧
      (normalizeRecord recBadRating).trackTemp =
        (if r.trackTemp_truthy then some r.trackTemp_toNumber else none) ∧
      (normalizeRecord recBadRating).trackUsage =
        (if r.trackUsage_truthy then some r.trackUsage_toNumber else none) ∧
      (normalizeRecord recBadRating).fuelUsed =
        (if r.fuelUsed_truthy then some r.fuelUsed_toNumber else none) :=
  optional_field_conversion [recBadRating] _ (by decide)

/-- C7 counterexample: `recBadRating` has a present but unparseable
`driverRating` text; the record is admitted and its lap stores
`some NaN` — a present, non-finite value — instead of the claimed
absence. -/
theorem optional_field_nan_counterexample :
    (normalize [recBadRating]).map Lap.driverRating = [some JSNumber.nan] := by
  decide

/-- A combo: one entry of the `combos` Map (lines 219-226), keyed by the
template string `${carName}@@${trackName}` with the car and track names
taken from the first lap encountered for the key. -/
structure Combo where
  key : String
  carName : String
  trackName : String
  laps : List Lap
deriving DecidableEq

/-- The grouping key of line 223: the string `${carName}@@${trackName}`. -/
def comboKey (l : Lap) : String :=
  l.carName ++ "@@" ++ l.trackName

/-- The effect of `map.get(key)!.laps.push(lap)` (line 225) on one Map
entry: append the lap to the entry with the matching key, leave the
others unchanged. -/
def updCombo (l : Lap) (c : Combo) : Combo :=
  if c.key == comboKey l then { c with laps := c.laps ++ [l] } else c

/-- One iteration of the grouping loop (lines 222-226): if the key is
already present, push onto that entry; otherwise append a fresh entry at
the end (a JavaScript Map iterates entries in key-insertion order, so
`Array.from(map.values())` lists groups by first occurrence). -/
def insertLap (acc : List Combo) (l : Lap) : List Combo :=
  if acc.any (fun c => c.key == comboKey l) then acc.map (updCombo l)
  else acc ++ [{ key := comboKey l, carName := l.carName,
                 trackName := l.trackName, laps := [l] }]

/-- The grouping loop of `combos` (lines 221-227) over a lap sequence. -/
def groupByCombo (laps : List Lap) : List Combo :=
  laps.foldl insertLap []

/-- The `getTime()` read used by the group comparator (lines 231-232).
Every grouped lap has passed the admission filter, so its start instant
is present; the default is never reached in the pipeline. -/
def lapStartMs (l : Lap) : Int :=
  l.startTime.getD 0

/-- The `Math.max(...laps.map(getTime))` of the group comparator (lines
231-232); groups are always non-empty, so the default of the empty
maximum is never reached in the pipeline. -/
def comboLatest (c : Combo) : Int :=
  ((c.laps.map lapStartMs).max?).getD 0

/-- The total preorder realised by the comparator of `list.sort` (lines
228-234): `a` precedes `b` when `a` has strictly more laps, or the same
number of laps and an at-least-as-recent latest start. -/
def comboLE (a b : Combo) : Prop :=
  b.laps.length < a.laps.length ∨
    (a.laps.length = b.laps.length ∧ comboLatest b ≤ comboLatest a)

instance : DecidableRel comboLE := fun _ _ =>
  inferInstanceAs (Decidable (_ ∨ _))

instance : IsTotal Combo comboLE :=
  ⟨fun a b => by unfold comboLE; omega⟩

instance : IsTrans Combo comboLE :=
  ⟨fun a b c h1 h2 => by unfold comboLE at *; omega⟩

/-- The Combo Aggregator (lines 217-236): filter the normalized laps to
the window, group by key, and sort the groups with the comparator.
JavaScript `Array.prototype.sort` is a stable sort, which insertion sort
realises exactly. -/
def aggregate (w : WeekWindow) (laps : List Lap) : List Combo :=
  List.insertionSort comboLE (groupByCombo (laps.filter (inWindow w)))

/-- Loop invariant of the grouping fold: after processing the prefix
`ps`, the accumulated groups have pairwise distinct keys, each group
holds exactly the processed laps of its key in processed order, every
processed lap has a group, and each group's key is the encoding of its
stored car and track names with a non-empty lap list. -/
def GroupInv (ps : List Lap) (acc : List Combo) : Prop :=
  (acc.map Combo.key).Nodup ∧
  (∀ c ∈ acc, c.laps = ps.filter (fun l => comboKey l == c.key)) ∧
  (∀ l ∈ ps, ∃ c ∈ acc, c.key = comboKey l) ∧
  (∀ c ∈ acc, c.key = c.carName ++ "@@" ++ c.trackName ∧ c.laps ≠ [])

theorem updCombo_key (l : Lap) (c : Combo) : (updCombo l c).key = c.key := by
  unfold updCombo; split <;> rfl

theorem updCombo_carName (l : Lap) (c : Combo) :
    (updCombo l c).carName = c.carName := by
  unfold updCombo; split <;> rfl

theorem updCombo_trackName (l : Lap) (c : Combo) :
    (updCombo l c).trackName = c.trackName := by
  unfold updCombo; split <;> rfl

theorem groupInv_insertLap {ps : List Lap} {acc : List Combo} {l : Lap}
    (h : GroupInv ps acc) : GroupInv (ps ++ [l]) (insertLap acc l) := by
  obtain ⟨hnd, hlaps, hcomp, hstruct⟩ := h
  unfold insertLap
  by_cases hany : acc.any (fun c => c.key == comboKey l) = true
  · rw [if_pos hany]
    refine ⟨?_, ?_, ?_, ?_⟩
    · have hkeys : (acc.map (updCombo l)).map Combo.key = acc.map Combo.key := by
        rw [List.map_map]
        exact List.map_congr_left fun c _ => updCombo_key l c
      rw [hkeys]; exact hnd
    · intro c' hc'
      obtain ⟨c, hc, rfl⟩ := List.mem_map.mp hc'
      rw [updCombo_key, List.filter_append]
      by_cases hk : (c.key == comboKey l) = true
      · have hkey : comboKey l = c.key := (beq_iff_eq.mp hk).symm
        have hfl : [l].filter (fun l' => comboKey l' == c.key) = [l] := by
          simp [hkey]
        rw [hfl, ← hlaps c hc]
        simp [updCombo, hk]
      · have hk' : ¬ c.key = comboKey l := by simpa using hk
        have hne : (comboKey l == c.key) = false := by
          simp only [beq_eq_false_iff_ne]
          exact fun hcon => hk' hcon.symm
        have hfl : [l].filter (fun l' => comboKey l' == c.key) = [] := by
          simp [hne]
        rw [hfl, ← hlaps c hc]
        simp [updCombo, hk]
    · intro l' hl'
      rcases List.mem_append.mp hl' with hl' | hl'
      · obtain ⟨c, hc, hckey⟩ := hcomp l' hl'
        exact ⟨updCombo l c, List.mem_map_of_mem _ hc, by rw [updCombo_key]; exact hckey⟩
      · obtain ⟨c, hc, hck⟩ := List.any_eq_true.mp hany
        refine ⟨updCombo l c, List.mem_map_of_mem _ hc, ?_⟩
        rw [updCombo_key]
        exact beq_iff_eq.mp hck ▸ (List.mem_singleton.mp hl') ▸ rfl
    · intro c' hc'
      obtain ⟨c, hc, rfl⟩ := List.mem_map.mp hc'
      refine ⟨?_, ?_⟩
      · rw [updCombo_key, updCombo_carName, updCombo_trackName]
        exact (hstruct c hc).1
      · unfold updCombo
        split
        · simp
        · exact (hstruct c hc).2
  · rw [if_neg hany]
    have hnot : ∀ c ∈ acc, ¬ c.key = comboKey l := by
      intro c hc
      have := List.any_eq_false.mp (Bool.eq_false_iff.mpr hany) c hc
      simpa using this
    refine ⟨?_, ?_, ?_, ?_⟩
    · rw [List.map_append]
      refine List.Nodup.append hnd (List.nodup_singleton _) ?_
      intro k hk hk1
      obtain ⟨c, hc, hckey⟩ := List.mem_map.mp hk
      exact hnot c hc (hckey.trans (List.mem_singleton.mp hk1))
    · intro c hc
      rcases List.mem_append.mp hc with hc | hc
      · have hne : (comboKey l == c.key) = false := by
          simp only [beq_eq_false_iff_ne]
          exact fun hcon => hnot c hc hcon.symm
        rw [List.filter_append]
        have hfl : [l].filter (fun l' => comboKey l' == c.key) = [] := by
          simp [hne]
        rw [hfl, ← hlaps c hc, List.append_nil]
      · rw [List.mem_singleton.mp hc]
        have hps : ps.filter (fun l' => comboKey l' == comboKey l) = [] := by
          rw [List.filter_eq_nil_iff]
          intro l' hl' hbeq
          obtain ⟨c, hc, hckey⟩ := hcomp l' hl'
          exact hnot c hc (hckey.trans (beq_iff_eq.mp hbeq))
        simp [List.filter_append, hps]
    · intro l' hl'
      rcases List.mem_append.mp hl' with hl' | hl'
      · obtain ⟨c, hc, hckey⟩ := hcomp l' hl'
        exact ⟨c, List.mem_append_left _ hc, hckey⟩
      · refine ⟨_, List.mem_append_right _ (List.mem_singleton_self _), ?_⟩
        rw [List.mem_singleton.mp hl']
    · intro c hc
      rcases List.mem_append.mp hc with hc | hc
      · exact hstruct c hc
      · rw [List.mem_singleton.mp hc]
        exact ⟨rfl, by simp⟩

theorem groupInv_foldl (rest : List Lap) :
    ∀ (ps : List Lap) (acc : List Combo), GroupInv ps acc →
      GroupInv (ps ++ rest) (rest.foldl insertLap acc) := by
  induction rest with
  | nil => intro ps acc h; simpa using h
  | cons r rest ih =>
    intro ps acc h
    have step := ih (ps ++ [r]) (insertLap acc r) (groupInv_insertLap h)
    simpa [List.append_assoc] using step

theorem groupInv_groupByCombo (laps : List Lap) :
    GroupInv laps (groupByCombo laps) := by
  have h0 : GroupInv [] ([] : List Combo) := by
    refine ⟨List.nodup_nil, ?_, ?_, ?_⟩ <;> simp
  simpa using groupInv_foldl laps [] [] h0

/-- C3 (amended): the aggregator retains exactly the in-window laps
(`start <= startTime < end`); it partitions them by the string key
`${carName}@@${trackName}` — which coincides with the pair
(carName, trackName) exactly when no name makes the encoding collide —
with each group listing its laps in filtered input order; no two output
groups share a key; groups are ordered by descending lap count with ties
by descending most-recent start; and each group carries the car and
track names its key encodes and is non-empty. -/
theorem combo_aggregator_correct (w : WeekWindow) (laps : List Lap) :
    (∀ c ∈ aggregate w laps, ∀ l ∈ c.laps,
        l ∈ laps ∧ ∃ t, l.startTime = some t ∧ w.start ≤ t ∧ t < w.endExclusive) ∧
    (∀ c ∈ aggregate w laps,
        c.laps = (laps.filter (inWindow w)).filter (fun l => comboKey l == c.key)) ∧
    (∀ l ∈ laps, inWindow w l = true → ∃ c ∈ aggregate w laps, l ∈ c.laps) ∧
    ((aggregate w laps).map Combo.key).Nodup ∧
    (aggregate w laps).Pairwise (fun a b =>
        b.laps.length ≤ a.laps.length ∧
        (a.laps.length = b.laps.length → comboLatest b ≤ comboLatest a)) ∧
    (∀ c ∈ aggregate w laps,
        c.key = c.carName ++ "@@" ++ c.trackName ∧ c.laps ≠ []) := by
  obtain ⟨hnd, hlaps, hcomp, hstruct⟩ :=
    groupInv_groupByCombo (laps.filter (inWindow w))
  have hmem : ∀ c : Combo, c ∈ aggregate w laps ↔
      c ∈ groupByCombo (laps.filter (inWindow w)) := by
    intro c; exact List.mem_insertionSort comboLE
  refine ⟨?_, ?_, ?_, ?_, ?_, ?_⟩
  · intro c hc l hl
    rw [hlaps c ((hmem c).mp hc)] at hl
    have hwk := List.mem_of_mem_filter hl
    have hlin : l ∈ laps := List.mem_of_mem_filter hwk
    have hwin : inWindow w l = true := List.of_mem_filter hwk
    refine ⟨hlin, ?_⟩
    cases hst : l.startTime with
    | none => rw [inWindow, hst] at hwin; exact absurd hwin (by simp)
    | some t =>
      rw [inWindow, hst] at hwin
      simp only [Bool.and_eq_true, decide_eq_true_eq] at hwin
      exact ⟨t, rfl, hwin.1, hwin.2⟩
  · intro c hc
    exact hlaps c ((hmem c).mp hc)
  · intro l hlin hwin
    have hwk : l ∈ laps.filter (inWindow w) := List.mem_filter.mpr ⟨hlin, hwin⟩
    obtain ⟨c, hc, hckey⟩ := hcomp l hwk
    refine ⟨c, (hmem c).mpr hc, ?_⟩
    rw [hlaps c hc]
    exact List.mem_filter.mpr ⟨hwk, beq_iff_eq.mpr hckey.symm⟩
  · have hperm := List.perm_insertionSort comboLE
      (groupByCombo (laps.filter (inWindow w)))
    exact ((hperm.map Combo.key).nodup_iff).mpr hnd
  · have hsorted := List.sorted_insertionSort comboLE
      (groupByCombo (laps.filter (inWindow w)))
    refine hsorted.imp ?_
    intro a b hab
    unfold comboLE at hab
    exact ⟨by omega, fun he => by omega⟩
  · intro c hc
    exact hstruct c ((hmem c).mp hc)

/-- A lap whose car name itself contains the separator `@@`. -/
def lapSepCar : Lap := mkLap "Aron Day" 58 "A@@B" "C" 1000

/-- A lap with a different (carName, trackName) pair whose key string
nevertheless collides with `lapSepCar`. -/
def lapSepTrack : Lap := mkLap "Jane Driver" 59 "A" "B@@C" 2000

/-- C3 counterexample: two admissible laps with distinct
(carName, trackName) pairs — ("A@@B", "C") and ("A", "B@@C") — collide on
the string key "A@@B@@C" and are aggregated into one single Combo, so the
aggregator does not partition by the (carName, trackName) pair; the
combo shows the first lap's car and track names, which differ from the
second lap's. -/
theorem combo_key_collision_counterexample :
    keepLap lapSepCar = true ∧ keepLap lapSepTrack = true ∧
    lapSepCar.carName = "A@@B" ∧ lapSepCar.trackName = "C" ∧
    lapSepTrack.carName = "A" ∧ lapSepTrack.trackName = "B@@C" ∧
    aggregate (weekBounds 0) [lapSepCar, lapSepTrack] =
      [{ key := "A@@B@@C", carName := "A@@B", trackName := "C",
         laps := [lapSepCar, lapSepTrack] }] := by
  refine ⟨rfl, rfl, rfl, rfl, rfl, rfl, by decide⟩

/-- A concrete admitted lap used for witnesses downstream of the
normalizer. -/
def demoLap0 : Lap := mkLap "Aron Day" 58 "Toyota GR86" "Lime Rock Park" 1000

/-- Witness for `combo_aggregator_correct`: the in-window lap `demoLap0`
ends up in some aggregated combo of its singleton input. -/
theorem combo_aggregator_correct_witness :
    (demoLap0 ∈ [demoLap0] ∧ inWindow (weekBounds 0) demoLap0 = true) ∧
    ∃ c ∈ aggregate (weekBounds 0) [demoLap0], demoLap0 ∈ c.laps :=
  ⟨⟨by decide, by decide⟩,
    (combo_aggregator_correct (weekBounds 0) [demoLap0]).2.2.1 demoLap0
      (by decide) (by decide)⟩

/-- The sort key read by the ranking comparator `a.lapTime - b.lapTime`
(line 247). Every lap of a pipeline combo passed the admission filter,
so its `lapTime` is finite; the 0 default for a non-finite value is never
reached in the pipeline. -/
def lapKey (l : Lap) : ℚ :=
  match l.lapTime with
  | .fin q => q
  | _ => 0

/-- The total preorder realised by the comparator of line 247. -/
def rankLE (a b : Lap) : Prop :=
  lapKey a ≤ lapKey b

instance : DecidableRel rankLE := fun _ _ =>
  inferInstanceAs (Decidable (_ ≤ _))

instance : IsTotal Lap rankLE :=
  ⟨fun _ _ => le_total _ _⟩

instance : IsTrans Lap rankLE :=
  ⟨fun _ _ _ => le_trans⟩

instance : IsRefl Lap rankLE :=
  ⟨fun _ => le_refl _⟩

/-- The `[...selectedCombo.laps].sort((a, b) => a.lapTime - b.lapTime)`
of line 247: JavaScript `Array.prototype.sort` is specified to be a
stable sort, which insertion sort realises exactly. -/
def sortedLaps (laps : List Lap) : List Lap :=
  List.insertionSort rankLE laps

/-- The `sorted[0]?.lapTime ?? 0` of line 248. -/
def leaderKey (laps : List Lap) : ℚ :=
  match sortedLaps laps with
  | [] => 0
  | x :: _ => lapKey x

/-- One output row of the Ranking Engine: the `{ ...lap, pos, delta }`
object of line 249. -/
structure RankedRow where
  lap : Lap
  pos : ℕ
  delta : ℚ
deriving DecidableEq

/-- The Ranking Engine, the `rows` memo body for a present combo (lines
245-250): sort the combo's laps by lap time, then annotate each with its
1-based position and its gap to the leader. -/
def rowsOf (laps : List Lap) : List RankedRow :=
  (sortedLaps laps).enum.map fun p =>
    { lap := p.2, pos := p.1 + 1, delta := lapKey p.2 - leaderKey laps }

/-- Stability of the stable sort, stated through filters: the sublist of
elements satisfying a predicate that forces mutual ties is unchanged by
sorting. -/
theorem filter_insertionSort_tied {α : Type} (r : α → α → Prop) [DecidableRel r]
    [IsTotal α r] [IsTrans α r] (p : α → Bool)
    (hp : ∀ a b, p a = true → p b = true → r a b) (l : List α) :
    (List.insertionSort r l).filter p = l.filter p := by
  have hpair : (l.filter p).Pairwise r :=
    List.pairwise_of_forall_mem_list fun a ha b hb =>
      hp a b (List.of_mem_filter ha) (List.of_mem_filter hb)
  have hsub : List.Sublist (l.filter p) (List.insertionSort r l) :=
    List.sublist_insertionSort hpair (List.filter_sublist l)
  have hself : (l.filter p).filter p = l.filter p :=
    List.filter_eq_self.mpr fun a ha => List.of_mem_filter ha
  have hsub2 : List.Sublist (l.filter p) ((List.insertionSort r l).filter p) := by
    have := hsub.filter p
    rwa [hself] at this
  have hlen : ((List.insertionSort r l).filter p).length = (l.filter p).length :=
    ((List.perm_insertionSort r l).filter p).length_eq
  exact (hsub2.eq_of_length hlen.symm).symm

theorem length_rowsOf (laps : List Lap) :
    (rowsOf laps).length = (sortedLaps laps).length := by
  simp [rowsOf]

theorem rowsOf_get (laps : List Lap) (i : ℕ) (h1 : i < (rowsOf laps).length)
    (h2 : i < (sortedLaps laps).length) :
    (rowsOf laps).get ⟨i, h1⟩ =
      { lap := (sortedLaps laps).get ⟨i, h2⟩, pos := i + 1,
        delta := lapKey ((sortedLaps laps).get ⟨i, h2⟩) - leaderKey laps } := by
  simp [rowsOf]

theorem leaderKey_eq_get_zero (laps : List Lap) (h : 0 < (sortedLaps laps).length) :
    leaderKey laps = lapKey ((sortedLaps laps).get ⟨0, h⟩) := by
  unfold leaderKey
  revert h
  generalize sortedLaps laps = s
  rcases s with _ | ⟨x, xs⟩
  · intro h; exact absurd h (by simp)
  · intro h; rfl

/-- C2: for a combo of admitted laps (all lap times finite, so `lapKey`
is exactly the lap time), the Ranking Engine returns the laps sorted
ascending by lap time with ties kept in the combo's original relative
order (filters by any fixed key value are unchanged by the sort);
positions are 1-based ranks; every row's delta is its lap time minus the
position-1 row's lap time, hence the leader's delta is 0 and all deltas
are non-negative; and an empty combo yields no rows. -/
theorem ranking_engine_correct (laps : List Lap)
    (hfin : ∀ l ∈ laps, l.lapTime.isFinite = true) :
    (∀ l ∈ laps, l.lapTime = .fin (lapKey l)) ∧
    (rowsOf laps).length = laps.length ∧
    (rowsOf laps).map RankedRow.lap = sortedLaps laps ∧
    (∀ q : ℚ, (sortedLaps laps).filter (fun l => lapKey l == q)
        = laps.filter (fun l => lapKey l == q)) ∧
    (∀ i j (hi : i < (rowsOf laps).length) (hj : j < (rowsOf laps).length),
        i ≤ j →
        lapKey ((rowsOf laps).get ⟨i, hi⟩).lap ≤
          lapKey ((rowsOf laps).get ⟨j, hj⟩).lap) ∧
    (∀ i (hi : i < (rowsOf laps).length),
        ((rowsOf laps).get ⟨i, hi⟩).pos = i + 1) ∧
    (∀ i (hi : i < (rowsOf laps).length) (h0 : 0 < (rowsOf laps).length),
        ((rowsOf laps).get ⟨i, hi⟩).delta =
          lapKey ((rowsOf laps).get ⟨i, hi⟩).lap -
            lapKey ((rowsOf laps).get ⟨0, h0⟩).lap) ∧
    (∀ h0 : 0 < (rowsOf laps).length, ((rowsOf laps).get ⟨0, h0⟩).delta = 0) ∧
    (∀ r ∈ rowsOf laps, 0 ≤ r.delta) ∧
    (laps = [] → rowsOf laps = []) := by
  have hlen : (rowsOf laps).length = laps.length := by
    rw [length_rowsOf]; simp [sortedLaps]
  have hlen2 : (rowsOf laps).length = (sortedLaps laps).length :=
    length_rowsOf laps
  have hsorted : (sortedLaps laps).Sorted rankLE :=
    List.sorted_insertionSort rankLE laps
  have hmono : ∀ i j (hi : i < (rowsOf laps).length)
      (hj : j < (rowsOf laps).length), i ≤ j →
      lapKey ((rowsOf laps).get ⟨i, hi⟩).lap ≤
        lapKey ((rowsOf laps).get ⟨j, hj⟩).lap := by
    intro i j hi hj hij
    rw [rowsOf_get laps i hi (hlen2 ▸ hi), rowsOf_get laps j hj (hlen2 ▸ hj)]
    exact hsorted.rel_get_of_le hij
  have hdelta : ∀ i (hi : i < (rowsOf laps).length)
      (h0 : 0 < (rowsOf laps).length),
      ((rowsOf laps).get ⟨i, hi⟩).delta =
        lapKey ((rowsOf laps).get ⟨i, hi⟩).lap -
          lapKey ((rowsOf laps).get ⟨0, h0⟩).lap := by
    intro i hi h0
    rw [rowsOf_get laps i hi (hlen2 ▸ hi), rowsOf_get laps 0 h0 (hlen2 ▸ h0)]
    rw [leaderKey_eq_get_zero laps (hlen2 ▸ h0)]
  refine ⟨?_, hlen, ?_, ?_, hmono, ?_, hdelta, ?_, ?_, ?_⟩
  · intro l hl
    have hf := hfin l hl
    cases hfl : l.lapTime
    case fin q => simp [lapKey, hfl]
    all_goals (rw [hfl] at hf; simp [JSNumber.isFinite] at hf)
  · rw [rowsOf, List.map_map]
    have : (RankedRow.lap ∘ fun p : ℕ × Lap =>
        ({ lap := p.2, pos := p.1 + 1,
           delta := lapKey p.2 - leaderKey laps } : RankedRow)) = Prod.snd := by
      funext p; rfl
    rw [this, List.enum_map_snd]
  · intro q
    refine filter_insertionSort_tied rankLE _ ?_ laps
    intro a b ha hb
    have ha' : lapKey a = q := by simpa using ha
    have hb' : lapKey b = q := by simpa using hb
    unfold rankLE
    rw [ha', hb']
  · intro i hi
    rw [rowsOf_get laps i hi (hlen2 ▸ hi)]
  · intro h0
    rw [hdelta 0 h0 h0, sub_self]
  · intro r hr
    obtain ⟨⟨i, hi⟩, rfl⟩ := List.mem_iff_get.mp hr
    have h0 : 0 < (rowsOf laps).length := by omega
    rw [hdelta i hi h0]
    have := hmono 0 i h0 hi (Nat.zero_le i)
    linarith
  · intro h
    subst h
    rfl

/-- Witness for `ranking_engine_correct` at the singleton combo
`[demoLap0]`, whose lap time is finite. -/
theorem ranking_engine_correct_witness :
    (∀ l ∈ [demoLap0], l.lapTime.isFinite = true) ∧
    (rowsOf [demoLap0]).length = [demoLap0].length :=
  ⟨by decide, (ranking_engine_correct [demoLap0] (by decide)).2.1⟩

/-- The selection-maintenance effect (lines 238-241) as a function from
the freshly aggregated combo list and the current selected key to the
next selected key: `if (combos.length && !selectedKey)` adopt the top
combo's key; `if (!combos.length)` clear the selection; otherwise the
key is left as it is. -/
def selectionStep (combos : List Combo) (k : String) : String :=
  match combos with
  | [] => ""
  | c :: _ => if k = "" then c.key else k

/-- C1 (amended): on an aggregation result the selection is cleared
exactly when the combo list is empty; a still-present non-empty selected
key is kept unchanged; but the fall-back to the top-ordered combo
happens only from the empty (no-selection) state — a non-empty selected
key whose combo has disappeared is also kept unchanged (stale) instead
of falling back to the top combo. -/
theorem selection_state_machine (combos : List Combo) (k : String) :
    (combos = [] → selectionStep combos k = "") ∧
    (∀ c cs, combos = c :: cs → k = "" → selectionStep combos k = c.key) ∧
    (∀ c cs, combos = c :: cs → k ≠ "" → selectionStep combos k = k) ∧
    (k ∈ combos.map Combo.key → k ≠ "" → selectionStep combos k = k) := by
  refine ⟨?_, ?_, ?_, ?_⟩
  · intro h; subst h; rfl
  · intro c cs h hk; subst h; simp [selectionStep, hk]
  · intro c cs h hk; subst h; simp [selectionStep, hk]
  · intro hmem hk
    rcases combos with _ | ⟨c, cs⟩
    · simp at hmem
    · simp [selectionStep, hk]

/-- A concrete aggregated combo used in selection witnesses. -/
def comboBY : Combo :=
  { key := "B@@Y", carName := "B", trackName := "Y",
    laps := [mkLap "Jane Driver" 59 "B" "Y" 1000] }

/-- Witness for `selection_state_machine`: from the empty selection, a
one-combo aggregation result selects that combo's key. -/
theorem selection_state_machine_witness :
    ([comboBY] = comboBY :: ([] : List Combo) ∧ "" = "") ∧
    selectionStep [comboBY] "" = comboBY.key :=
  ⟨⟨rfl, rfl⟩, (selection_state_machine [comboBY] "").2.1 comboBY [] rfl rfl⟩

/-- C1 counterexample: a refresh aggregates the single combo "B@@Y" while
the selected key is the vanished "A@@X"; the claim requires the selection
to fall back to the top combo "B@@Y", but the effect keeps the stale
"A@@X" (it only seeds an empty selection and only clears when the combo
list is empty). -/
theorem selection_no_fallback_counterexample :
    (aggregate (weekBounds 0)
        [mkLap "Jane Driver" 59 "B" "Y" 1000]).map Combo.key = ["B@@Y"] ∧
    selectionStep (aggregate (weekBounds 0)
        [mkLap "Jane Driver" 59 "B" "Y" 1000]) "A@@X" = "A@@X" ∧
    "A@@X" ∉ ["B@@Y"] ∧ ("A@@X" : String) ≠ "" ∧ ("A@@X" : String) ≠ "B@@Y" := by
  refine ⟨by decide, by decide, by decide, by decide, by decide⟩

/-- A feed payload as the component's success path sees it after
`res.json()`: either a JSON array of records, or some non-array value
(the case `!Array.isArray(json)` on line 62). -/
inductive Payload where
  | arr : List RawRecord → Payload
  | nonArray : Payload
deriving DecidableEq

/-- The outcome of one `fetch` attempt inside `fetchData` (lines 56-62):
a parsed body, a non-success HTTP status (`!res.ok`, line 60), or a
network/transport rejection with its message. -/
inductive FetchOutcome where
  | ok : Payload → FetchOutcome
  | httpError : Nat → FetchOutcome
  | networkError : String → FetchOutcome

/-- The component state touched by `fetchData`: the stored raw snapshot
(`raw`, line 34), the error text (line 36) and the demo flag (line 39). -/
structure BoardState where
  raw : Payload
  error : String
  usedDemo : Bool

/-- The initial component state: `useState<any[]>([])`,
`useState("")`, `useState(false)` (lines 34, 36, 39). -/
def initialState : BoardState :=
  { raw := .arr [], error := "", usedDemo := false }

/-- The fixed demo dataset of lines 69-111, relative to the current
instant: the first record starts now, the second 30 minutes ago, the
third 58 minutes ago. -/
def demoRecords (now : Int) : List RawRecord :=
  [{ fullName := some "Aron Day"
     lapTime_parseFloat := .fin 58.8125
     driverRating_truthy := true
     driverRating_toNumber := .fin 1892
     eventId := some "01K2MVHA0SVZW8ERD31WSBBY33"
     lapId := some "01K2MVWYJYV0J7MJVAQ9YAX410"
     trackTemp_truthy := true
     trackTemp_toNumber := .fin 27
     trackUsage_truthy := true
     trackUsage_toNumber := .fin 28
     fuelUsed_truthy := true
     fuelUsed_toNumber := .fin 0.6845195
     carId := some "145"
     carName := some "Toyota GR86"
     trackName := some "Lime Rock Park"
     trackId := some "31"
     startTime_ms := some now },
   { fullName := some "Jane Driver"
     lapTime_parseFloat := .fin 59.103
     driverRating_truthy := true
     driverRating_toNumber := .fin 2101
     eventId := none
     lapId := some "demo-2"
     trackTemp_truthy := true
     trackTemp_toNumber := .fin 27
     trackUsage_truthy := true
     trackUsage_toNumber := .fin 29
     fuelUsed_truthy := false
     fuelUsed_toNumber := .nan
     carId := some "145"
     carName := some "Toyota GR86"
     trackName := some "Lime Rock Park"
     trackId := some "31"
     startTime_ms := some (now - 1800000) },
   { fullName := some "Max Speedman"
     lapTime_parseFloat := .fin 60.245
     driverRating_truthy := true
     driverRating_toNumber := .fin 1705
     eventId := none
     lapId := some "demo-3"
     trackTemp_truthy := true
     trackTemp_toNumber := .fin 27
     trackUsage_truthy := true
     trackUsage_toNumber := .fin 26
     fuelUsed_truthy := false
     fuelUsed_toNumber := .nan
     carId := some "145"
     carName := some "Toyota GR86"
     trackName := some "Lime Rock Park"
     trackId := some "31"
     startTime_ms := some (now - 3480000) }]

/-- The catch branch of `fetchData` (lines 65-115): record the error
message; when the caller permitted the demo fallback, substitute the
fixed demo dataset and raise the demo flag, otherwise leave the stored
snapshot untouched (the demo flag was reset at the start of the try
block). -/
def fetchFail (allow : Bool) (now : Int) (s : BoardState) (msg : String) :
    BoardState :=
  if allow then
    { raw := .arr (demoRecords now), error := msg, usedDemo := true }
  else
    { s with error := msg, usedDemo := false }

/-- One complete `fetchData` cycle (lines 50-119) as a state transition,
parameterised by the caller's `allowDemoFallback`, the current instant,
and the fetch outcome. A non-ok status throws `Request failed: \x7bstatus\x7d`
(line 60) and a non-array body throws `Unexpected response shape`
(line 62); both throws land in the same catch branch as a network
failure, whose own message defaults to `Failed to load data` (line 66).
A successful array body is stored with the error text and demo flag
cleared (lines 54-55, 63). -/
def fetchStep (allow : Bool) (now : Int) (outcome : FetchOutcome)
    (s : BoardState) : BoardState :=
  match outcome with
  | .ok (.arr json) => { raw := .arr json, error := "", usedDemo := false }
  | .ok .nonArray => fetchFail allow now s "Unexpected response shape"
  | .httpError status =>
      fetchFail allow now s ("Request failed: " ++ toString status)
  | .networkError msg =>
      fetchFail allow now s (if msg = "" then "Failed to load data" else msg)

/-- Whether a cycle's own fetch-and-parse failed (anything but an array
body: transport error, non-success status, or non-array shape). -/
def cycleFails (o : FetchOutcome) : Bool :=
  match o with
  | .ok (.arr _) => false
  | _ => true

/-- The `allowDemoFallback` value of the startup cycle (line 147). -/
def startupAllowsFallback : Bool := true

/-- The `allowDemoFallback` value of every scheduled cycle (line 141). -/
def scheduledAllowsFallback : Bool := false

/-- The `allowDemoFallback` value of the manual refresh triggers: the
header Refresh button (line 284) and the error panel's Try-again button
(line 358). The fourth and last caller, the error panel's manual
Load-demo-data button (line 359), is modelled separately by
`loadDemoAllowsFallback`. -/
def manualRefreshAllowsFallback : Bool := false

/-- The `allowDemoFallback` value of the error panel's manual
Load-demo-data button (line 359): a user-triggered, non-startup cycle
that does permit the fallback substitution. -/
def loadDemoAllowsFallback : Bool := true

/-- C9 (amended): a cycle raises the demo flag exactly when its own
fetch fails and the caller permitted fallback; a failing cycle without
fallback leaves the stored snapshot unchanged; a successful cycle always
stores the fetched array with the demo flag down (so within a cycle
fallback never replaces a success, and fallback use is always
distinguishable by the flag). The callers permitting fallback are the
startup cycle and the manual Load-demo-data button; scheduled cycles and
the manual refresh triggers (Refresh, Try-again) never permit it — but
because the Load-demo-data trigger is manual and permits fallback, a
failed Load-demo cycle can overwrite data from an earlier successful
fetch with the fallback dataset across cycles. -/
theorem fetch_fallback_policy (allow : Bool) (now : Int)
    (outcome : FetchOutcome) (s : BoardState) :
    ((fetchStep allow now outcome s).usedDemo = true ↔
        cycleFails outcome = true ∧ allow = true) ∧
    (cycleFails outcome = true → allow = false →
        (fetchStep allow now outcome s).raw = s.raw) ∧
    (∀ json, outcome = .ok (.arr json) →
        (fetchStep allow now outcome s).raw = .arr json ∧
        (fetchStep allow now outcome s).usedDemo = false) ∧
    (cycleFails outcome = true → allow = true →
        (fetchStep allow now outcome s).raw = .arr (demoRecords now)) ∧
    startupAllowsFallback = true ∧ scheduledAllowsFallback = false ∧
    manualRefreshAllowsFallback = false ∧ loadDemoAllowsFallback = true := by
  cases outcome with
  | ok p =>
    cases p <;> cases allow <;>
      simp [fetchStep, fetchFail, cycleFails, startupAllowsFallback,
        scheduledAllowsFallback, manualRefreshAllowsFallback,
        loadDemoAllowsFallback]
  | httpError st =>
    cases allow <;>
      simp [fetchStep, fetchFail, cycleFails, startupAllowsFallback,
        scheduledAllowsFallback, manualRefreshAllowsFallback,
        loadDemoAllowsFallback]
  | networkError m =>
    cases allow <;>
      simp [fetchStep, fetchFail, cycleFails, startupAllowsFallback,
        scheduledAllowsFallback, manualRefreshAllowsFallback,
        loadDemoAllowsFallback]

/-- Witness for `fetch_fallback_policy`: a failed scheduled-style cycle
(no fallback permitted) leaves the initial snapshot unchanged. -/
theorem fetch_fallback_policy_witness :
    (fetchStep false 0 (FetchOutcome.httpError 500) initialState).raw =
      initialState.raw :=
  (fetch_fallback_policy false 0 (.httpError 500) initialState).2.1 rfl rfl

/-- C9 counterexample: the manual Load-demo-data trigger (line 359)
passes `allowDemoFallback: true`, so fallback substitution is not
exclusive to the startup cycle and can overwrite a success. The trace:
a successful startup fetch stores the fetched array; a failed scheduled
refresh leaves it in place (and renders the error panel holding the
button); a then-failed manual Load-demo cycle replaces it with the
fallback demo array — a manual cycle substituted Fallback data on
failure, and Fallback data overwrote data from a successful fetch. -/
theorem fallback_overwrites_success_counterexample :
    (fetchStep startupAllowsFallback 0 (.ok (.arr [])) initialState).raw =
      Payload.arr [] ∧
    (fetchStep scheduledAllowsFallback 0 (.httpError 500)
      (fetchStep startupAllowsFallback 0 (.ok (.arr [])) initialState)).raw =
      Payload.arr [] ∧
    (fetchStep loadDemoAllowsFallback 0 (.networkError "Failed to fetch")
      (fetchStep scheduledAllowsFallback 0 (.httpError 500)
        (fetchStep startupAllowsFallback 0 (.ok (.arr [])) initialState))).raw =
      Payload.arr (demoRecords 0) ∧
    (fetchStep loadDemoAllowsFallback 0 (.networkError "Failed to fetch")
      (fetchStep scheduledAllowsFallback 0 (.httpError 500)
        (fetchStep startupAllowsFallback 0 (.ok (.arr [])) initialState))).usedDemo =
      true ∧
    Payload.arr (demoRecords 0) ≠ Payload.arr [] ∧
    loadDemoAllowsFallback = true := by
  refine ⟨rfl, rfl, rfl, rfl, ?_, rfl⟩
  simp [demoRecords]

/-- The states the component's raw snapshot machinery can reach: the
initial state followed by any sequence of fetch cycles. -/
inductive Reachable : BoardState → Prop where
  | init : Reachable initialState
  | step (allow : Bool) (now : Int) (outcome : FetchOutcome) (s : BoardState) :
      Reachable s → Reachable (fetchStep allow now outcome s)

/-- C10: the stored raw snapshot starts as the empty array and in every
reachable state is an array — a success writes a body only after the
`Array.isArray` check, a non-array body raises the distinct
response-shape error without writing the payload, and the fallback path
writes the fixed demo array — so the Normalizer is never fed a
non-sequence from the component's own state. -/
theorem raw_snapshot_always_array :
    initialState.raw = Payload.arr [] ∧
    (∀ s, Reachable s → ∃ rs, s.raw = Payload.arr rs) ∧
    (∀ (allow : Bool) (now : Int) (s : BoardState),
        (fetchStep allow now (.ok .nonArray) s).error =
          "Unexpected response shape") := by
  refine ⟨rfl, ?_, ?_⟩
  · intro s h
    induction h with
    | init => exact ⟨[], rfl⟩
    | step allow now outcome s hs ih =>
      rcases outcome with ⟨json | _⟩ | st | m
      · exact ⟨json, rfl⟩
      · cases allow
        · exact ih
        · exact ⟨demoRecords now, rfl⟩
      · cases allow
        · exact ih
        · exact ⟨demoRecords now, rfl⟩
      · cases allow
        · exact ih
        · exact ⟨demoRecords now, rfl⟩
  · intro allow now s
    cases allow <;> rfl

/-- Witness for `raw_snapshot_always_array`: the state reached from the
initial state by one startup cycle with a non-array body still stores an
array. -/
theorem raw_snapshot_always_array_witness :
    ∃ rs, (fetchStep true 0 (FetchOutcome.ok Payload.nonArray)
      initialState).raw = Payload.arr rs :=
  raw_snapshot_always_array.2.1 _
    (Reachable.step true 0 (.ok .nonArray) initialState Reachable.init)

end TopGear
